import Mathlib

/-
Verification of the preview sampling / filename-codec / process-supervision
pipeline of `preview.py` (plugin `Preview`, classes `PreviewFrame`,
`PreviewGenerator`, `Preview`).

Python strings are modelled as `List Char`; Python ints as `ℕ` (the
quantities involved — eye ids, frame counters, byte lengths — are
non-negative); Python floats as `ℚ` (a detector confidence is an exact
real value here; all comparisons made by the claims are at the declared
4-decimal precision, where the double rounding of CPython is exact for
the values any theorem below touches).  External collaborators (zmq
transport, OpenCV codecs, the 2D detector, GLFW) are opaque: they enter
the model only through the values they hand back (a payload trace, a
confidence value per detector call, a setup outcome).
-/

/- ## Decimal digit utilities (model of Python's int/float printing and parsing) -/

def digitChar : ℕ → Char
  | 0 => '0' | 1 => '1' | 2 => '2' | 3 => '3' | 4 => '4'
  | 5 => '5' | 6 => '6' | 7 => '7' | 8 => '8' | 9 => '9' | _ => '!'

def digitVal (c : Char) : ℕ := c.toNat - 48

/-- Value of a string of decimal digits, most significant first (model of
`int(s)` on an all-digit string). -/
def digitsVal (s : List Char) : ℕ := s.foldl (fun a c => a * 10 + digitVal c) 0

def natDigitsAux : ℕ → ℕ → List Char
  | 0, _ => []
  | fuel + 1, n =>
    if n < 10 then [digitChar n]
    else natDigitsAux fuel (n / 10) ++ [digitChar (n % 10)]

/-- Decimal rendering of a natural number, as Python's `str`/`format` renders an
`int` (fuelled so the definition is structurally recursive and reducible). -/
def natDigits (n : ℕ) : List Char := natDigitsAux (n + 1) n

/- ## `PreviewFrame` (preview.py 29-98): the frame-metadata record and its
   filename encoding `FILE_FORMAT = eye{}_frame{}_confidence{:05.4f}.{}` -/

/-- `PreviewFrame.Format` (preview.py 34-44): the image format enum, whose
string form is the file extension. -/
inductive Format where
  | JPEG
  | PNG
  | BMP
deriving DecidableEq

/-- `str(format)` (preview.py 43-44): the enum value, i.e. the extension. -/
def Format.str : Format → List Char
  | .JPEG => ['j', 'p', 'g']
  | .PNG => ['p', 'n', 'g']
  | .BMP => ['b', 'm', 'p']

/-- `PreviewFrame.Format.from_extension` (preview.py 50-57): first enum member
(in declaration order JPEG, PNG, BMP) whose string form equals the extension;
`none` models the `ValueError("Unknown extension ...")` raised otherwise. -/
def Format.from_extension (e : List Char) : Option Format :=
  if e = Format.str .JPEG then some .JPEG
  else if e = Format.str .PNG then some .PNG
  else if e = Format.str .BMP then some .BMP
  else none

/-- `PreviewFrame` (preview.py 61-77): eye id, frame number, 2D-detection
confidence, image format. -/
structure PreviewFrame where
  eye_id : ℕ
  frame_num : ℕ
  confidence : ℚ
  format : Format
deriving DecidableEq

/-- Round-half-even to an integer, the rounding CPython's float formatting
applies to the decimal expansion of the value being printed. -/
def rhe (q : ℚ) : ℤ :=
  let f := ⌊q⌋
  let r := q - (f : ℚ)
  if r < 1 / 2 then f else if 1 / 2 < r then f + 1 else if 2 ∣ f then f else f + 1

/-- Exactly four decimal digits of m < 10000, zero-padded (the fractional part
produced by the format spec `05.4f`). -/
def pad4 (m : ℕ) : List Char :=
  [digitChar (m / 1000 % 10), digitChar (m / 100 % 10), digitChar (m / 10 % 10),
   digitChar (m % 10)]

/-- Rendering of a confidence by the format spec `05.4f`: the value rounded
(half-even) to four decimals, printed with exactly four fractional digits.
The minimum-width-5 zero fill of `05.4f` is inert for every non-negative
value, since the output is at least six characters long. -/
def fmtConf (q : ℚ) : List Char :=
  let n := (rhe (q * 10000)).toNat
  natDigits (n / 10000) ++ '.' :: pad4 (n % 10000)

/-- Literal text of `PreviewFrame.FILE_FORMAT` (preview.py 59) before the
first placeholder. -/
def fmtLit1 : List Char := ['e', 'y', 'e']

/-- Literal text of `FILE_FORMAT` between the first and second placeholders. -/
def fmtLit2 : List Char := ['_', 'f', 'r', 'a', 'm', 'e']

/-- Literal text of `FILE_FORMAT` between the second and third placeholders. -/
def fmtLit3 : List Char := ['_', 'c', 'o', 'n', 'f', 'i', 'd', 'e', 'n', 'c', 'e']

/-- Literal text of `FILE_FORMAT` between the third and fourth placeholders:
the dot before the extension. -/
def fmtLit4 : List Char := ['.']

/-- `PreviewFrame.__str__` (preview.py 79-82): the encoded file name
`eye{eye_id}_frame{frame_num}_confidence{confidence:05.4f}.{format}`. -/
def toStr (r : PreviewFrame) : List Char :=
  fmtLit1 ++ (natDigits r.eye_id ++ (fmtLit2 ++ (natDigits r.frame_num ++
    (fmtLit3 ++ (fmtConf r.confidence ++ (fmtLit4 ++ Format.str r.format))))))

/- ## The glob pre-selection (preview.py 107-121): `FILE_FORMAT` with each
   `{...}` placeholder replaced by `*`, i.e. `eye*_frame*_confidence*.*`,
   matched by `pathlib.Path.glob` against each file name in the folder. -/

/-- fnmatch-style matching of a pattern made of literal characters and `*`
(the only metacharacter the derived pattern contains); `*` matches any
(possibly empty) character sequence. -/
def globMatch : List Char → List Char → Bool
  | [], s => s.isEmpty
  | c :: ps, s =>
    if c = '*' then s.tails.any (fun t => globMatch ps t)
    else
      match s with
      | [] => false
      | d :: s2 => c == d && globMatch ps s2

/-- The glob pattern `file_pattern` (preview.py 110): each placeholder of
`FILE_FORMAT` replaced by `*`. -/
def filePatternGlob : List Char :=
  fmtLit1 ++ ('*' :: (fmtLit2 ++ ('*' :: (fmtLit3 ++ ('*' :: (fmtLit4 ++ ['*']))))))

/- ## The extraction regex (preview.py 113-117): `FILE_FORMAT` with each
   placeholder replaced by the capture group `([0-9]+(?:\.[0-9]+)?|[a-z]+)`,
   applied with `re.fullmatch`.  Note that the literal dot of the template is
   NOT escaped in the constructed pattern, so between the third and fourth
   groups it matches ANY single character. -/

/-- Candidates of the optional fraction `(?:\.[0-9]+)?` after a maximal digit
run `ds`, in the backtracking preference order of the Python engine: with the
fraction first, longest fractional digit run first. -/
def fracCandidates (ds rest0 : List Char) : List (List Char × List Char) :=
  match rest0 with
  | [] => []
  | c :: t =>
    if c = '.' then
      (List.range (t.takeWhile Char.isDigit).length).map fun j =>
        (ds ++ '.' :: (t.takeWhile Char.isDigit).take ((t.takeWhile Char.isDigit).length - j),
         t.drop ((t.takeWhile Char.isDigit).length - j))
    else []

/-- All ways the capture group `([0-9]+(?:\.[0-9]+)?|[a-z]+)` can match a
prefix of `s`, as (captured text, remaining input) pairs, listed in the
Python engine's preference order: first alternative before second, greedy
quantifiers longest-first.  A digit run shorter than maximal is necessarily
followed by a digit, so it can take no fraction. -/
def groupCandidates (s : List Char) : List (List Char × List Char) :=
  (if (s.takeWhile Char.isDigit).isEmpty then []
   else
     fracCandidates (s.takeWhile Char.isDigit) (s.drop (s.takeWhile Char.isDigit).length) ++
       ((s.takeWhile Char.isDigit), s.drop (s.takeWhile Char.isDigit).length) ::
         (List.range ((s.takeWhile Char.isDigit).length - 1)).map fun k =>
           ((s.takeWhile Char.isDigit).take ((s.takeWhile Char.isDigit).length - 1 - k),
            s.drop ((s.takeWhile Char.isDigit).length - 1 - k)) ) ++
  (List.range (s.takeWhile Char.isLower).length).map fun j =>
    ((s.takeWhile Char.isLower).take ((s.takeWhile Char.isLower).length - j),
     s.drop ((s.takeWhile Char.isLower).length - j))

/-- Strips an expected literal prefix, returning the rest of the input. -/
def stripPre : List Char → List Char → Option (List Char)
  | [], s => some s
  | _, [] => none
  | p :: ps, c :: cs => if p = c then stripPre ps cs else none

/-- `info_extractor.fullmatch(name)` (preview.py 113-122): the four captured
groups, or `none` when the name does not fully match.  The pattern is the
template's literal runs interleaved with the four capture groups; the
template's dot before the extension, being unescaped in the regex, matches
any single character (`match r3 with _ :: s4`).  Backtracking is modelled by
`findSome?` over the candidate lists in preference order. -/
def extractGroups (name : List Char) :
    Option (List Char × List Char × List Char × List Char) :=
  match stripPre fmtLit1 name with
  | none => none
  | some s1 =>
    (groupCandidates s1).findSome? fun g1 =>
      match stripPre fmtLit2 g1.2 with
      | none => none
      | some s2 =>
        (groupCandidates s2).findSome? fun g2 =>
          match stripPre fmtLit3 g2.2 with
          | none => none
          | some s3 =>
            (groupCandidates s3).findSome? fun g3 =>
              match g3.2 with
              | [] => none
              | _ :: s4 =>
                (groupCandidates s4).findSome? fun g4 =>
                  if g4.2 = [] then some (g1.1, g2.1, g3.1, g4.1) else none

/- ## Field parsing and `PreviewFrame.load_all` (preview.py 100-138) -/

/-- Model of Python `int(s)` on a captured group: succeeds exactly on a
non-empty all-digit string (a group with a dot or an alphabetic group makes
`int` raise `ValueError`). -/
def pyInt (s : List Char) : Option ℕ :=
  if s ≠ [] ∧ s.all Char.isDigit then some (digitsVal s) else none

/-- Model of Python `float(s)` on a captured group.  A group is either a
digit run, a digit run with a dotted fraction, or a lowercase-alphabetic run;
the numeric shapes parse to their exact rational value.  (Python's `float`
additionally accepts the alphabetic strings "inf", "infinity" and "nan",
denoting non-finite doubles that this rational-valued model cannot carry;
they are mapped to `none`, and no theorem below touches a name whose
confidence field is alphabetic.) -/
def pyFloat (s : List Char) : Option ℚ :=
  match s.drop (s.takeWhile Char.isDigit).length with
  | [] =>
    if (s.takeWhile Char.isDigit).isEmpty then none
    else some (digitsVal (s.takeWhile Char.isDigit) : ℚ)
  | c :: fp =>
    if c = '.' ∧ ¬(s.takeWhile Char.isDigit).isEmpty ∧ fp ≠ [] ∧ fp.all Char.isDigit then
      some ((digitsVal (s.takeWhile Char.isDigit) : ℚ) + (digitsVal fp : ℚ) / 10 ^ fp.length)
    else none

/-- The `ValueError`s that can escape the loop body of `load_all`. -/
inductive LoadErr where
  | badIntField (s : List Char)
  | badFloatField (s : List Char)
  | unknownExt (s : List Char)
deriving DecidableEq

/-- Outcome of `load_all`'s loop body for one file name. -/
inductive FileResult where
  | skip
  | frame (f : PreviewFrame)
  | err (e : LoadErr)
deriving DecidableEq

/-- One iteration of the scan loop (preview.py 121-131): a file is seen only
if its name matches the glob pattern; a glob-matching name that does not
fully match the extraction regex is skipped (`continue`); otherwise the four
groups are parsed — `int`, `int`, `float`, `from_extension`, in that order —
each parse failure raising a `ValueError` that aborts the whole scan. -/
def processName (name : List Char) : FileResult :=
  if globMatch filePatternGlob name then
    match extractGroups name with
    | none => .skip
    | some (g1, g2, g3, g4) =>
      match pyInt g1 with
      | none => .err (.badIntField g1)
      | some eye =>
        match pyInt g2 with
        | none => .err (.badIntField g2)
        | some fnum =>
          match pyFloat g3 with
          | none => .err (.badFloatField g3)
          | some conf =>
            match Format.from_extension g4 with
            | none => .err (.unknownExt g4)
            | some fmt => .frame ⟨eye, fnum, conf, fmt⟩
  else .skip

/-- `collections[frame.eye_id].append(frame)` on a `defaultdict(list)`
(preview.py 120, 132): append to the group of this eye id, keeping the
first-seen order of keys, creating the group on first sight. -/
def insertRecord (cols : List (ℕ × List PreviewFrame)) (f : PreviewFrame) :
    List (ℕ × List PreviewFrame) :=
  match cols with
  | [] => [(f.eye_id, [f])]
  | (k, fs) :: rest =>
    if k = f.eye_id then (k, fs ++ [f]) :: rest else (k, fs) :: insertRecord rest f

/-- The scan loop over the directory listing: build the per-eye groups, or
abort with the first `ValueError`. -/
def collectGroupsAux (cols : List (ℕ × List PreviewFrame)) :
    List (List Char) → Except LoadErr (List (ℕ × List PreviewFrame))
  | [] => .ok cols
  | n :: ns =>
    match processName n with
    | .skip => collectGroupsAux cols ns
    | .err e => .error e
    | .frame f => collectGroupsAux (insertRecord cols f) ns

def collectGroups (names : List (List Char)) :
    Except LoadErr (List (ℕ × List PreviewFrame)) :=
  collectGroupsAux [] names

/-- The sort key of `collection.sort(key=lambda x: x.frame_num)`
(preview.py 135-136). -/
def frameLe (a b : PreviewFrame) : Prop := a.frame_num ≤ b.frame_num

instance : DecidableRel frameLe := fun a b => Nat.decLe a.frame_num b.frame_num

instance : IsTotal PreviewFrame frameLe := ⟨fun a b => Nat.le_total a.frame_num b.frame_num⟩

instance : IsTrans PreviewFrame frameLe := ⟨fun _ _ _ => Nat.le_trans⟩

/-- In-place stable sort of one group by frame number (preview.py 135-136). -/
def sortByFrame (l : List PreviewFrame) : List PreviewFrame :=
  List.insertionSort frameLe l

def zipAllAux : ℕ → List (List PreviewFrame) → List (List PreviewFrame)
  | 0, _ => []
  | fuel + 1, gs =>
    if gs.isEmpty || gs.any List.isEmpty then []
    else gs.filterMap List.head? :: zipAllAux fuel (gs.map List.tail)

/-- `tuple(zip(*tuple(collections.values())))` (preview.py 138): transpose the
groups positionally, stopping as soon as any group (or the group list itself)
is exhausted.  The fuel bounds the iteration count by the first group's
length and keeps the definition structurally recursive. -/
def zipAll (gs : List (List PreviewFrame)) : List (List PreviewFrame) :=
  zipAllAux ((gs.head?.map List.length).getD 0 + 1) gs

/-- `PreviewFrame.load_all` (preview.py 100-138): scan the directory listing,
group by eye id, sort each group by frame number, and zip the groups into
positionally aligned tuples.  `Except.error` models the scan aborting with an
uncaught `ValueError`. -/
def load_all (names : List (List Char)) :
    Except LoadErr (List (List PreviewFrame)) :=
  (collectGroups names).map fun cols => zipAll (cols.map fun c => sortByFrame c.2)

/- ## `PreviewGenerator.ImageStream` (preview.py 142-259): the per-source
   accumulator -/

/-- The data of one tagged frame payload the worker receives: its declared
pixel format, the byte length of `payload["__raw_data__"][-1]`, and the
frame dimensions.  Pixel contents are opaque (consumed only by OpenCV and
the detector). -/
structure Payload where
  format : String
  rawLen : ℕ
  width : ℕ
  height : ℕ
deriving DecidableEq

/-- Outcome of one `ImageStream.add` call: `true`/`false` returns, or the two
exceptions the method can raise (`NotImplementedError` for an unsupported
pixel format, `RuntimeWarning` for a byte-length mismatch). -/
inductive AddResult where
  | added
  | skipped
  | raisedNotImplemented (fmt : String)
  | raisedSizeMismatch (len : ℕ)
deriving DecidableEq

/-- `PreviewGenerator.ImageStream` state (preview.py 155-178).  The
`Detector_2D` is an opaque external capability; it enters the model as the
confidence value it returns for a payload's decoded image. -/
structure ImageStream where
  eye_id : ℕ
  frame_per_frames : ℕ
  folder : List Char
  frame_size : ℕ × ℕ
  frame_format : Format
  counter : ℕ
  detector : Payload → ℚ

/-- `np.prod(shape)` for `shape = [frame_size[1], frame_size[0]]`, with a
third dimension 3 appended for non-gray formats (preview.py 190-192). -/
def expectedSize (s : ImageStream) (fmt : String) : ℕ :=
  if fmt = "gray" then s.frame_size.2 * s.frame_size.1
  else s.frame_size.2 * s.frame_size.1 * 3

/-- `ImageStream.add` (preview.py 180-256).  The counter is incremented
unconditionally first; a call triggers processing iff the incremented counter
is a multiple of `frame_per_frames`.  A triggering call checks the pixel
format against the closed set `("gray", "bgr", "jpeg")`, then accepts the
raw buffer iff its length equals the expected size *or* the format is jpeg;
on success the detector runs and the frame is saved under its encoded name
(the written record is returned; image decoding with OpenCV is opaque). -/
def ImageStream.add (s : ImageStream) (p : Payload) :
    AddResult × ImageStream × Option PreviewFrame :=
  let s2 : ImageStream := { s with counter := s.counter + 1 }
  if (s.counter + 1) % s.frame_per_frames = 0 then
    if p.format ≠ "gray" ∧ p.format ≠ "bgr" ∧ p.format ≠ "jpeg" then
      (.raisedNotImplemented p.format, s2, none)
    else
      if p.rawLen = expectedSize s p.format ∨ p.format = "jpeg" then
        (.added, s2, some ⟨s.eye_id, s.counter + 1, s.detector p, s.frame_format⟩)
      else
        (.raisedSizeMismatch p.rawLen, s2, none)
  else (.skipped, s2, none)

/-- A run of `add` calls on one accumulator, collecting the per-call results
and the records persisted along the way. -/
def runAdds (s : ImageStream) :
    List Payload → ImageStream × List AddResult × List PreviewFrame
  | [] => (s, [], [])
  | p :: ps =>
    let r := s.add p
    let rest := runAdds r.2.1 ps
    (rest.1, r.1 :: rest.2.1, r.2.2.toList ++ rest.2.2)

/- ## `PreviewGenerator.generate` (preview.py 261-316): the worker body -/

/-- The exceptions crossing the model's boundaries. -/
inductive PyEx where
  | fileExists
  | assertJoinFailed
  | notImplementedFmt (fmt : String)
  | sizeMismatchLen (n : ℕ)
  | connectFail
deriving DecidableEq

/-- Messages sent on the status pipe: the two informational sends of
`generate` and the terminal exception value sent by its handler. -/
inductive StatusMsg where
  | connecting
  | starting
  | raised (e : PyEx)
deriving DecidableEq

def isRaisedMsg : StatusMsg → Bool
  | .raised _ => true
  | _ => false

/-- One iteration's worth of input to the worker loop (preview.py 299-312):
the command pipe has a pending cancel message, or no new frame is available,
or a tagged frame payload arrives for the given eye id. -/
inductive WorkerEvent where
  | cancelReceived
  | noNewData
  | frameMsg (sid : ℕ) (p : Payload)

/-- The `PreviewGenerator` parameters (preview.py 261-283) together with the
abstract outcomes of its external collaborators: whether the zmq setup
raises, and the confidence the opaque detector yields per stream and
payload. -/
structure GenArgs where
  frame_per_frames : ℕ
  folder : List Char
  frame_format : Format
  connect_error : Option PyEx
  detectorOf : ℕ → Payload → ℚ

/-- Lazy per-source stream creation (preview.py 303-311), seeding the frame
size from the first payload seen for the source. -/
def mkStream (a : GenArgs) (sid : ℕ) (p : Payload) : ImageStream :=
  { eye_id := sid, frame_per_frames := a.frame_per_frames, folder := a.folder,
    frame_size := (p.width, p.height), frame_format := a.frame_format,
    counter := 0, detector := a.detectorOf sid }

/-- `streams[sid] = st` on the registry dict. -/
def setStream (l : List (ℕ × ImageStream)) (sid : ℕ) (st : ImageStream) :
    List (ℕ × ImageStream) :=
  match l with
  | [] => [(sid, st)]
  | (k, v) :: t => if k = sid then (sid, st) :: t else (k, v) :: setStream t sid st

/-- The worker's consume loop (preview.py 298-312): exit when a cancel is
pending, otherwise route any new payload to its (lazily created) stream;
an exception raised by `add` escapes the loop. -/
def workerLoop (a : GenArgs) (streams : List (ℕ × ImageStream)) :
    List WorkerEvent → Except PyEx Unit
  | [] => .ok ()
  | .cancelReceived :: _ => .ok ()
  | .noNewData :: evs => workerLoop a streams evs
  | .frameMsg sid p :: evs =>
    let streams2 :=
      if (streams.lookup sid).isSome then streams
      else setStream streams sid (mkStream a sid p)
    match streams2.lookup sid with
    | none => .ok ()
    | some st =>
      let r := st.add p
      match r.1 with
      | .raisedNotImplemented f => .error (.notImplementedFmt f)
      | .raisedSizeMismatch n => .error (.sizeMismatchLen n)
      | _ => workerLoop a (setStream streams2 sid r.2.1) evs

/-- Everything inside the `try` of `PreviewGenerator.generate`
(preview.py 287-314): the status messages sent, and how the body ends —
normally, or with the exception it raised.  The first send precedes the zmq
setup, the second follows it, and the loop sends nothing. -/
def generateBody (a : GenArgs) (events : List WorkerEvent) :
    List StatusMsg × Except PyEx Unit :=
  match a.connect_error with
  | some e => ([.connecting], .error e)
  | none => ([.connecting, .starting], workerLoop a [] events)

/-- `PreviewGenerator.generate` (preview.py 285-316): the whole body runs
under one `try`; any exception it raises is sent (once) on the status pipe
by the `except Exception` handler and the function returns normally.  The
value is the full sequence of messages sent on the status pipe. -/
def generate (a : GenArgs) (events : List WorkerEvent) : List StatusMsg :=
  (generateBody a events).1 ++
    (match (generateBody a events).2 with
     | .ok _ => []
     | .error e => [.raised e])

/- ## `Preview.on_notify` (preview.py 533-585): the supervisor's notification
   handler -/

structure WorkerInfo where
  alive : Bool
deriving DecidableEq

/-- Externally visible actions of one `on_notify` call. -/
inductive Effect where
  | spawnedWorker
  | sentExit
  | warnedNoPreviews
  | notifiedShow
  | shownWindow
  | closedWindow
deriving DecidableEq

/-- The plugin state `on_notify` consults and updates, with the filesystem
conditions it reads abstracted into booleans: `folder_abs_dir` is
`folder.is_absolute() and folder.is_dir()`; `mkdir_conflict` says the derived
recording sub-folder already exists (so `mkdir(parents=True)` raises
`FileExistsError`); `previews_exist` is the post-stop glob check (also used
as the window's successful-load condition). -/
structure PluginState where
  worker : Option WorkerInfo
  generator_folder : Option (List Char)
  window : Option Bool
  should_show : Bool
  folder : List Char
  folder_abs_dir : Bool
  mkdir_conflict : Bool
  previews_exist : Bool
deriving DecidableEq

/-- `Preview.on_notify` (preview.py 533-585).  Branches in source order:
`recording.started` spawns the worker only when none exists;
`recording.stopped` (worker present and alive) sends the cancel, joins with
`join_ok` as the abstract join outcome (a failed join trips the `assert`),
then warns or requests the preview window; `preview.show` and
`preview.close` manage the window.  A notification matching no branch's
condition falls through and does nothing. -/
def on_notify (s : PluginState) (subject : String) (rec_path : List Char)
    (join_ok : Bool) : Except PyEx (PluginState × List Effect) :=
  if subject = "recording.started" ∧ s.worker = none then
    if ¬s.folder_abs_dir ∧ s.mkdir_conflict then .error .fileExists
    else
      .ok ({ s with
              generator_folder :=
                some (if s.folder_abs_dir then s.folder else rec_path ++ s.folder),
              worker := some ⟨true⟩ },
           [.spawnedWorker])
  else if subject = "recording.stopped" ∧ (s.worker.map WorkerInfo.alive).getD false = true then
    if ¬join_ok then .error .assertJoinFailed
    else
      .ok ({ s with worker := none },
           .sentExit ::
             (if ¬s.previews_exist then [.warnedNoPreviews]
              else if s.should_show then [.notifiedShow] else []))
  else if subject = "preview.show" ∧ s.generator_folder ≠ none ∧ s.window = none then
    .ok ({ s with window := some s.previews_exist }, [.shownWindow])
  else if subject = "preview.close" ∧ s.window = some true then
    .ok ({ s with window := none }, [.closedWindow])
  else .ok (s, [])

/- ## Characterization helpers and concrete inputs used by the theorems -/

/-- The list holding each group's `i`-th element, or `none` when some group is
too short: the contents one tuple of the zipped result must have. -/
def optGets (i : ℕ) : List (List PreviewFrame) → Option (List PreviewFrame)
  | [] => some []
  | g :: gs =>
    match g[i]? with
    | none => none
    | some x => (optGets i gs).map (x :: ·)

/-- Length of the shortest group (0 for no groups). -/
def minLen : List (List PreviewFrame) → ℕ
  | [] => 0
  | [g] => g.length
  | g :: gs => min g.length (minLen gs)

/-- A name the extraction regex accepts although the encoder cannot produce
it: the unescaped template dot matches the character X. -/
def badName : List Char := "eye0_frame1_confidence0.5Xjpg".data

/-- The record `load_all`'s loop builds from `badName`. -/
def badRec : PreviewFrame :=
  match processName badName with
  | .frame f => f
  | _ => ⟨0, 0, 0, .JPEG⟩

/-- A name with an unknown extension that fully matches the extraction
pattern, so `from_extension` raises. -/
def extName : List Char := "eye1_frame2_confidence0.5000.txt".data

/-- Directory entries that do not fully match: a foreign file (fails the
glob) and a glob-matching name the regex rejects. -/
def strayNames : List (List Char) :=
  ["random.txt".data, "eyeA1_frame2_confidence0.5000.jpg".data]

/-- A directory with two eyes holding 2 and 1 records, listed out of order. -/
def demoNames : List (List Char) :=
  ["eye0_frame2_confidence0.5000.jpg".data, "eye0_frame1_confidence0.2500.jpg".data,
   "eye1_frame5_confidence0.7500.jpg".data]

/-- The groups the scan builds from `demoNames`. -/
def demoCols : List (ℕ × List PreviewFrame) :=
  match collectGroups demoNames with
  | .ok c => c
  | .error _ => []

def demoDetector : Payload → ℚ := fun _ => 0

/-- An accumulator with sampling interval 3, fresh counter. -/
def demoStream : ImageStream := ⟨7, 3, ['p'], (4, 2), .JPEG, 0, demoDetector⟩

/-- An accumulator with sampling interval 1 (every call triggers). -/
def demoTrig : ImageStream := ⟨7, 1, ['p'], (4, 2), .JPEG, 0, demoDetector⟩

def grayPayload : Payload := ⟨"gray", 8, 4, 2⟩

def demoPayloads : List Payload := [grayPayload, grayPayload, grayPayload]

def rgbPayload : Payload := ⟨"rgb", 8, 4, 2⟩

def jpegWrongLen : Payload := ⟨"jpeg", 999, 4, 2⟩

def grayWrongLen : Payload := ⟨"gray", 7, 4, 2⟩

/-- Generator arguments whose zmq setup fails. -/
def demoGen : GenArgs := ⟨3, ['p'], .JPEG, some .connectFail, fun _ _ => 0⟩

/-- A plugin state whose worker from a previous start is still present. -/
def c7run : PluginState := ⟨some ⟨true⟩, some ['p'], none, true, ['p'], true, false, true⟩

/-- A second such state (worker object no longer alive, still present). -/
def c7run2 : PluginState := ⟨some ⟨false⟩, none, none, false, ['q'], false, true, false⟩

/- ## Lemmas: decimal digits -/

theorem digitVal_digitChar (d : ℕ) (h : d < 10) : digitVal (digitChar d) = d := by
  interval_cases d <;> rfl

theorem isDigit_digitChar (d : ℕ) (h : d < 10) : (digitChar d).isDigit = true := by
  interval_cases d <;> rfl

theorem digitsVal_concat (xs : List Char) (c : Char) :
    digitsVal (xs ++ [c]) = digitsVal xs * 10 + digitVal c := by
  simp [digitsVal, List.foldl_append]

theorem natDigitsAux_spec (fuel : ℕ) :
    ∀ n, n < fuel →
      natDigitsAux fuel n ≠ [] ∧ (∀ c ∈ natDigitsAux fuel n, c.isDigit = true) ∧
        digitsVal (natDigitsAux fuel n) = n := by
  induction fuel with
  | zero => intro n h; omega
  | succ fuel ih =>
    intro n h
    by_cases h10 : n < 10
    · refine ⟨by simp [natDigitsAux, h10], ?_, ?_⟩
      · intro c hc
        simp [natDigitsAux, h10] at hc
        subst hc
        exact isDigit_digitChar n h10
      · simp [natDigitsAux, h10, digitsVal, digitVal_digitChar n h10]
    · have hdiv : n / 10 < n := Nat.div_lt_self (by omega) (by omega)
      have hrec := ih (n / 10) (by omega)
      refine ⟨by simp [natDigitsAux, h10], ?_, ?_⟩
      · intro c hc
        simp only [natDigitsAux, h10, if_false] at hc
        rcases List.mem_append.1 hc with hm | hm
        · exact hrec.2.1 c hm
        · simp at hm
          subst hm
          exact isDigit_digitChar _ (by omega)
      · simp only [natDigitsAux, h10, if_false]
        rw [digitsVal_concat, hrec.2.2, digitVal_digitChar _ (by omega)]
        omega

theorem natDigits_ne (n : ℕ) : natDigits n ≠ [] :=
  (natDigitsAux_spec (n + 1) n (Nat.lt_succ_self n)).1

theorem natDigits_digits (n : ℕ) : ∀ c ∈ natDigits n, c.isDigit = true :=
  (natDigitsAux_spec (n + 1) n (Nat.lt_succ_self n)).2.1

theorem digitsVal_natDigits (n : ℕ) : digitsVal (natDigits n) = n :=
  (natDigitsAux_spec (n + 1) n (Nat.lt_succ_self n)).2.2

theorem pad4_ne (m : ℕ) : pad4 m ≠ [] := by simp [pad4]

theorem pad4_digits (m : ℕ) : ∀ c ∈ pad4 m, c.isDigit = true := by
  intro c hc
  simp [pad4] at hc
  rcases hc with h | h | h | h <;> subst h <;> exact isDigit_digitChar _ (by omega)

theorem pad4_len (m : ℕ) : (pad4 m).length = 4 := rfl

theorem digitsVal_pad4 (m : ℕ) (h : m < 10000) : digitsVal (pad4 m) = m := by
  simp only [pad4, digitsVal, List.foldl_cons, List.foldl_nil]
  rw [digitVal_digitChar _ (by omega), digitVal_digitChar _ (by omega),
    digitVal_digitChar _ (by omega), digitVal_digitChar _ (by omega)]
  omega

/- ## Lemmas: string scanning primitives -/

theorem takeWhile_append_not (p : Char → Bool) :
    ∀ (D : List Char) (c : Char) (r : List Char),
      (∀ x ∈ D, p x = true) → p c = false → (D ++ c :: r).takeWhile p = D := by
  intro D
  induction D with
  | nil => intro c r _ hc; simp [List.takeWhile_cons, hc]
  | cons d D ih =>
    intro c r hall hc
    have hd : p d = true := hall d (by simp)
    simp only [List.cons_append, List.takeWhile_cons, hd, if_true]
    rw [ih c r (fun x hx => hall x (by simp [hx])) hc]

theorem stripPre_append : ∀ (p s : List Char), stripPre p (p ++ s) = some s := by
  intro p
  induction p with
  | nil => intro s; simp [stripPre]
  | cons a ps ih => intro s; simp [stripPre, ih]

theorem pyInt_natDigits (m : ℕ) : pyInt (natDigits m) = some m := by
  have h1 : natDigits m ≠ [] := natDigits_ne m
  have h2 : (natDigits m).all Char.isDigit = true :=
    List.all_eq_true.2 (natDigits_digits m)
  simp [pyInt, h1, h2, digitsVal_natDigits]

/- ## Lemmas: the first (preferred) candidate of the capture group -/

theorem exists_cons_of_head? {α : Type} {l : List α} {a : α}
    (h : l.head? = some a) : ∃ t, l = a :: t := by
  cases l with
  | nil => cases h
  | cons b t =>
    simp only [List.head?_cons, Option.some.injEq] at h
    exact ⟨t, by rw [h]⟩

theorem groupCandidates_digit_head (D : List Char) (c : Char) (r : List Char)
    (hD : D ≠ []) (hDd : ∀ x ∈ D, x.isDigit = true) (hc : c.isDigit = false)
    (hdot : c ≠ '.') :
    ∃ t, groupCandidates (D ++ c :: r) = (D, c :: r) :: t := by
  have tw : (D ++ c :: r).takeWhile Char.isDigit = D :=
    takeWhile_append_not _ D c r hDd hc
  have dl : (D ++ c :: r).drop D.length = c :: r := List.drop_left D (c :: r)
  have hne : D.isEmpty = false := by
    cases D with
    | nil => exact absurd rfl hD
    | cons _ _ => rfl
  apply exists_cons_of_head?
  simp only [groupCandidates, tw, dl, hne, Bool.false_eq_true, if_false,
    fracCandidates, if_neg hdot, List.nil_append, List.cons_append, List.head?_cons]

theorem groupCandidates_conf_head (Ci Cf : List Char) (d : Char) (r : List Char)
    (hCi : Ci ≠ []) (hCid : ∀ x ∈ Ci, x.isDigit = true)
    (hCf : Cf ≠ []) (hCfd : ∀ x ∈ Cf, x.isDigit = true)
    (hd : d.isDigit = false) :
    ∃ t, groupCandidates (Ci ++ '.' :: (Cf ++ d :: r)) = (Ci ++ '.' :: Cf, d :: r) :: t := by
  have tw : (Ci ++ '.' :: (Cf ++ d :: r)).takeWhile Char.isDigit = Ci :=
    takeWhile_append_not _ Ci '.' _ hCid (by decide)
  have dl : (Ci ++ '.' :: (Cf ++ d :: r)).drop Ci.length = '.' :: (Cf ++ d :: r) :=
    List.drop_left Ci _
  have hne : Ci.isEmpty = false := by
    cases Ci with
    | nil => exact absurd rfl hCi
    | cons _ _ => rfl
  have tw2 : (Cf ++ d :: r).takeWhile Char.isDigit = Cf :=
    takeWhile_append_not _ Cf d r hCfd hd
  obtain ⟨m, hm⟩ : ∃ m, Cf.length = m + 1 := by
    cases Cf with
    | nil => exact absurd rfl hCf
    | cons a l => exact ⟨l.length, rfl⟩
  have hr : List.range Cf.length = 0 :: (List.range m).map Nat.succ := by
    rw [hm, List.range_succ_eq_map]
  apply exists_cons_of_head?
  simp only [groupCandidates, tw, dl, hne, Bool.false_eq_true, if_false,
    fracCandidates, if_pos rfl, if_true, eq_self_iff_true, tw2, hr, List.map_cons,
    Nat.sub_zero, List.take_length, List.drop_left, List.cons_append,
    List.nil_append, List.head?_cons]

theorem groupCandidates_ext (fmt : Format) :
    ∃ t, groupCandidates (Format.str fmt) = (Format.str fmt, []) :: t := by
  cases fmt <;> exact ⟨_, rfl⟩

/- ## The extraction regex accepts every encoded name, capturing its fields -/

theorem extract_encoded (D1 D2 Ci Cf : List Char) (fmt : Format)
    (hD1 : D1 ≠ []) (hD1d : ∀ x ∈ D1, x.isDigit = true)
    (hD2 : D2 ≠ []) (hD2d : ∀ x ∈ D2, x.isDigit = true)
    (hCi : Ci ≠ []) (hCid : ∀ x ∈ Ci, x.isDigit = true)
    (hCf : Cf ≠ []) (hCfd : ∀ x ∈ Cf, x.isDigit = true) :
    extractGroups
        (fmtLit1 ++ (D1 ++ (fmtLit2 ++ (D2 ++
          (fmtLit3 ++ ((Ci ++ '.' :: Cf) ++ ('.' :: Format.str fmt))))))) =
      some (D1, D2, Ci ++ '.' :: Cf, Format.str fmt) := by
  have e3 : (Ci ++ '.' :: Cf) ++ ('.' :: Format.str fmt) =
      Ci ++ '.' :: (Cf ++ '.' :: Format.str fmt) := by
    simp [List.append_assoc]
  rw [e3]
  have e1 : fmtLit2 ++ (D2 ++ (fmtLit3 ++ (Ci ++ '.' :: (Cf ++ '.' :: Format.str fmt)))) =
      '_' :: (['f', 'r', 'a', 'm', 'e'] ++
        (D2 ++ (fmtLit3 ++ (Ci ++ '.' :: (Cf ++ '.' :: Format.str fmt))))) := rfl
  have e2 : fmtLit3 ++ (Ci ++ '.' :: (Cf ++ '.' :: Format.str fmt)) =
      '_' :: (['c', 'o', 'n', 'f', 'i', 'd', 'e', 'n', 'c', 'e'] ++
        (Ci ++ '.' :: (Cf ++ '.' :: Format.str fmt))) := rfl
  obtain ⟨t1, ht1⟩ :=
    groupCandidates_digit_head D1 '_'
      (['f', 'r', 'a', 'm', 'e'] ++
        (D2 ++ (fmtLit3 ++ (Ci ++ '.' :: (Cf ++ '.' :: Format.str fmt)))))
      hD1 hD1d (by decide) (by decide)
  obtain ⟨t2, ht2⟩ :=
    groupCandidates_digit_head D2 '_'
      (['c', 'o', 'n', 'f', 'i', 'd', 'e', 'n', 'c', 'e'] ++
        (Ci ++ '.' :: (Cf ++ '.' :: Format.str fmt)))
      hD2 hD2d (by decide) (by decide)
  obtain ⟨t3, ht3⟩ :=
    groupCandidates_conf_head Ci Cf '.' (Format.str fmt) hCi hCid hCf hCfd (by decide)
  obtain ⟨t4, ht4⟩ := groupCandidates_ext fmt
  have s1 : stripPre fmtLit1
      (fmtLit1 ++ (D1 ++ (fmtLit2 ++ (D2 ++
        (fmtLit3 ++ (Ci ++ '.' :: (Cf ++ '.' :: Format.str fmt))))))) =
      some (D1 ++ (fmtLit2 ++ (D2 ++
        (fmtLit3 ++ (Ci ++ '.' :: (Cf ++ '.' :: Format.str fmt)))))) :=
    stripPre_append fmtLit1 _
  have s2 : stripPre fmtLit2
      ('_' :: (['f', 'r', 'a', 'm', 'e'] ++
        (D2 ++ (fmtLit3 ++ (Ci ++ '.' :: (Cf ++ '.' :: Format.str fmt)))))) =
      some (D2 ++ (fmtLit3 ++ (Ci ++ '.' :: (Cf ++ '.' :: Format.str fmt)))) :=
    stripPre_append fmtLit2 _
  have s3 : stripPre fmtLit3
      ('_' :: (['c', 'o', 'n', 'f', 'i', 'd', 'e', 'n', 'c', 'e'] ++
        (Ci ++ '.' :: (Cf ++ '.' :: Format.str fmt)))) =
      some (Ci ++ '.' :: (Cf ++ '.' :: Format.str fmt)) :=
    stripPre_append fmtLit3 _
  simp only [extractGroups, s1]
  rw [e1, ht1]
  simp only [List.findSome?_cons, s2]
  rw [e2, ht2]
  simp only [List.findSome?_cons, s3, ht3, ht4, if_pos rfl, if_true]

/- ## Lemmas: the glob pattern accepts every encoded name -/

theorem globMatch_lit : ∀ (L P S : List Char), '*' ∉ L →
    globMatch (L ++ P) (L ++ S) = globMatch P S := by
  intro L
  induction L with
  | nil => intro P S _; rfl
  | cons c L ih =>
    intro P S h
    have hc : c ≠ '*' := fun he => h (by simp [he])
    simp only [List.cons_append, globMatch, if_neg hc, beq_self_eq_true, Bool.true_and]
    exact ih P S fun hm => h (by simp [hm])

theorem globMatch_star (P s : List Char) :
    globMatch ('*' :: P) s = s.tails.any (fun t => globMatch P t) := rfl

theorem globMatch_star_all (s : List Char) : globMatch ['*'] s = true := by
  rw [globMatch_star, List.any_eq_true]
  refine ⟨[], (List.mem_tails _ _).2 List.nil_suffix, ?_⟩
  rfl

theorem globMatch_star_of (P s1 s2 : List Char) (h : globMatch P s2 = true) :
    globMatch ('*' :: P) (s1 ++ s2) = true := by
  rw [globMatch_star, List.any_eq_true]
  exact ⟨s2, (List.mem_tails _ _).2 (List.suffix_append s1 s2), h⟩

theorem glob_encoded (D1 D2 C3 E : List Char) :
    globMatch filePatternGlob
      (fmtLit1 ++ (D1 ++ (fmtLit2 ++ (D2 ++ (fmtLit3 ++ (C3 ++ ('.' :: E))))))) = true := by
  have e4 : ('.' :: E) = fmtLit4 ++ E := rfl
  unfold filePatternGlob
  rw [globMatch_lit fmtLit1 _ _ (by decide)]
  apply globMatch_star_of
  rw [globMatch_lit fmtLit2 _ _ (by decide)]
  apply globMatch_star_of
  rw [globMatch_lit fmtLit3 _ _ (by decide)]
  apply globMatch_star_of
  rw [e4, globMatch_lit fmtLit4 _ _ (by decide)]
  exact globMatch_star_all E

/- ## Lemmas: parsing the encoded fields back -/

theorem pyFloat_encoded (Ci Cf : List Char)
    (hCi : Ci ≠ []) (hCid : ∀ x ∈ Ci, x.isDigit = true)
    (hCf : Cf ≠ []) (hCfd : ∀ x ∈ Cf, x.isDigit = true) :
    pyFloat (Ci ++ '.' :: Cf) =
      some ((digitsVal Ci : ℚ) + (digitsVal Cf : ℚ) / 10 ^ Cf.length) := by
  have tw : (Ci ++ '.' :: Cf).takeWhile Char.isDigit = Ci :=
    takeWhile_append_not _ Ci '.' Cf hCid (by decide)
  have dl : (Ci ++ '.' :: Cf).drop Ci.length = '.' :: Cf := List.drop_left Ci _
  have hne : Ci.isEmpty = false := by
    cases Ci with
    | nil => exact absurd rfl hCi
    | cons _ _ => rfl
  simp only [pyFloat, tw, dl]
  simp [hne, hCf, List.all_eq_true.2 hCfd]

theorem from_extension_str (fmt : Format) :
    Format.from_extension (Format.str fmt) = some fmt := by
  cases fmt <;> rfl

theorem rhe_natCast (m : ℕ) : rhe ((m : ℚ)) = (m : ℤ) := by
  simp [rhe]

theorem rhe_nonneg (q : ℚ) (h : 0 ≤ q) : 0 ≤ rhe q := by
  have hf : (0 : ℤ) ≤ ⌊q⌋ := Int.floor_nonneg.2 h
  unfold rhe
  dsimp only
  split_ifs <;> omega

/- ## Claim C1 -/

/-- Claim C1: for every valid `FrameRecord` (sourceId ≥ 0, sequenceNumber ≥ 1,
confidence in the unit interval, a known format), decoding the file name
produced by the encoder yields a record equal to it field by field, the
confidence compared at the declared 4-decimal precision (both confidences
round half-even to the same number of ten-thousandths). -/
theorem claim_C1_roundtrip (r : PreviewFrame)
    (hfn : 1 ≤ r.frame_num) (hc0 : 0 ≤ r.confidence) (hc1 : r.confidence ≤ 1) :
    ∃ r2, processName (toStr r) = .frame r2 ∧
      r2.eye_id = r.eye_id ∧ r2.frame_num = r.frame_num ∧ r2.format = r.format ∧
      rhe (r2.confidence * 10000) = rhe (r.confidence * 10000) := by
  set n : ℕ := (rhe (r.confidence * 10000)).toNat with hn
  have hshape : toStr r =
      fmtLit1 ++ (natDigits r.eye_id ++ (fmtLit2 ++ (natDigits r.frame_num ++
        (fmtLit3 ++ ((natDigits (n / 10000) ++ '.' :: pad4 (n % 10000)) ++
          ('.' :: Format.str r.format)))))) := by
    simp only [toStr, fmtConf, ← hn]
    rfl
  have hglob : globMatch filePatternGlob
      (fmtLit1 ++ (natDigits r.eye_id ++ (fmtLit2 ++ (natDigits r.frame_num ++
        (fmtLit3 ++ ((natDigits (n / 10000) ++ '.' :: pad4 (n % 10000)) ++
          ('.' :: Format.str r.format))))))) = true :=
    glob_encoded _ _ _ _
  have hext := extract_encoded (natDigits r.eye_id) (natDigits r.frame_num)
    (natDigits (n / 10000)) (pad4 (n % 10000)) r.format
    (natDigits_ne _) (natDigits_digits _) (natDigits_ne _) (natDigits_digits _)
    (natDigits_ne _) (natDigits_digits _) (pad4_ne _) (pad4_digits _)
  have hfloat : pyFloat (natDigits (n / 10000) ++ '.' :: pad4 (n % 10000)) =
      some (((n / 10000 : ℕ) : ℚ) + ((n % 10000 : ℕ) : ℚ) / 10 ^ (4 : ℕ)) := by
    rw [pyFloat_encoded _ _ (natDigits_ne _) (natDigits_digits _) (pad4_ne _)
      (pad4_digits _), digitsVal_natDigits, digitsVal_pad4 _ (by omega), pad4_len]
  refine ⟨⟨r.eye_id, r.frame_num,
      ((n / 10000 : ℕ) : ℚ) + ((n % 10000 : ℕ) : ℚ) / 10 ^ (4 : ℕ), r.format⟩,
    ?_, rfl, rfl, rfl, ?_⟩
  · rw [hshape]
    simp only [processName, hglob, if_true, hext, pyInt_natDigits, hfloat,
      from_extension_str]
  · have h4 : (((n / 10000 : ℕ) : ℚ) + ((n % 10000 : ℕ) : ℚ) / 10 ^ (4 : ℕ)) * 10000
        = ((n : ℕ) : ℚ) := by
      have hdm : 10000 * (n / 10000) + n % 10000 = n := Nat.div_add_mod n 10000
      have hcast : ((n : ℕ) : ℚ) =
          10000 * ((n / 10000 : ℕ) : ℚ) + ((n % 10000 : ℕ) : ℚ) := by
        conv_lhs => rw [← hdm]
        push_cast
        ring
      rw [hcast]
      have hp : (10 : ℚ) ^ (4 : ℕ) = 10000 := by norm_num
      rw [hp]
      field_simp
      ring
    rw [h4, rhe_natCast, hn]
    exact Int.toNat_of_nonneg (rhe_nonneg _ (mul_nonneg hc0 (by norm_num)))

/- ## Claims C3 and C4: what the loader skips, throws on, and accepts -/

theorem processName_skip (name : List Char)
    (h : globMatch filePatternGlob name = false ∨ extractGroups name = none) :
    processName name = .skip := by
  rcases h with h | h
  · simp [processName, h]
  · by_cases hg : globMatch filePatternGlob name
    · simp [processName, hg, h]
    · simp [processName, hg]

theorem collectGroupsAux_skips (names : List (List Char))
    (cols : List (ℕ × List PreviewFrame))
    (h : ∀ n ∈ names, processName n = .skip) :
    collectGroupsAux cols names = .ok cols := by
  induction names with
  | nil => rfl
  | cons n ns ih =>
    have hn := h n (by simp)
    simp only [collectGroupsAux, hn]
    exact ih fun m hm => h m (by simp [hm])

/-- Claim C3 (amended): the loader never throws on — and silently skips —
any directory entry that fails the glob pre-selection or does not fully
match the derived extraction pattern, and the scan completes; but full
matching is weaker than "produced by the encoder": a name that fully
matches the pattern while carrying an unparseable field or an unknown
extension raises a `ValueError` that aborts the whole scan (see the
counterexample, where a foreign `.txt` file kills `load_all`). -/
theorem claim_C3_amended (names : List (List Char))
    (h : ∀ n ∈ names, globMatch filePatternGlob n = false ∨ extractGroups n = none) :
    load_all names = .ok [] := by
  have hc : collectGroups names = .ok [] :=
    collectGroupsAux_skips names [] fun n hn => processName_skip n (h n hn)
  simp only [load_all, hc, Except.map]
  rfl

/-- Claim C3 (counterexample): a directory holding one foreign file whose
name does not come from the encoder (`eye1_frame2_confidence0.5000.txt`)
makes `load_all` raise an uncaught `ValueError` instead of skipping it. -/
theorem claim_C3_counterexample :
    load_all [extName] = .error (.unknownExt ['t', 'x', 't']) := rfl

/-- Claim C4 (amended): every file name from which the loader constructs a
record passes the glob and fully matches the mechanically derived pattern,
with its first two groups parsing as ints, the third as a float and the
fourth as a known extension — but that pattern is strictly weaker than the
encode template: its separator before the extension (an unescaped dot)
matches any character, so names no encoder run can produce are accepted
(see the counterexample). -/
theorem claim_C4_amended (name : List Char) (r : PreviewFrame)
    (h : processName name = .frame r) :
    globMatch filePatternGlob name = true ∧
    ∃ g1 g2 g3 g4, extractGroups name = some (g1, g2, g3, g4) ∧
      pyInt g1 = some r.eye_id ∧ pyInt g2 = some r.frame_num ∧
      pyFloat g3 = some r.confidence ∧ Format.from_extension g4 = some r.format := by
  by_cases hg : globMatch filePatternGlob name
  case neg => simp [processName, hg] at h
  case pos =>
    refine ⟨hg, ?_⟩
    unfold processName at h
    rw [if_pos hg] at h
    cases hE : extractGroups name with
    | none => rw [hE] at h; simp at h
    | some g =>
      obtain ⟨g1, g2, g3, g4⟩ := g
      rw [hE] at h
      dsimp only at h
      cases h1 : pyInt g1 with
      | none => rw [h1] at h; simp at h
      | some eye =>
        rw [h1] at h
        dsimp only at h
        cases h2 : pyInt g2 with
        | none => rw [h2] at h; simp at h
        | some fnum =>
          rw [h2] at h
          dsimp only at h
          cases h3 : pyFloat g3 with
          | none => rw [h3] at h; simp at h
          | some conf =>
            rw [h3] at h
            dsimp only at h
            cases h4 : Format.from_extension g4 with
            | none => rw [h4] at h; simp at h
            | some fmt =>
              rw [h4] at h
              dsimp only at h
              injection h with h5
              exact ⟨g1, g2, g3, g4, rfl, by rw [← h5]; exact h1,
                by rw [← h5]; exact h2, by rw [← h5]; exact h3,
                by rw [← h5]; exact h4⟩

theorem count_dot_fmtConf (q : ℚ) : 1 ≤ (fmtConf q).count '.' := by
  simp only [fmtConf, List.count_append, List.count_cons_self]
  omega

theorem count_dot_toStr (r : PreviewFrame) : 2 ≤ (toStr r).count '.' := by
  have h1 := count_dot_fmtConf r.confidence
  have h2 : (fmtLit4.count '.') = 1 := rfl
  simp only [toStr, List.count_append]
  omega

/-- Claim C4 (counterexample): `eye0_frame1_confidence0.5Xjpg` — a name with
a non-dot character before the extension — yields a record (eye 0, frame 1,
JPEG), yet no record encodes to it: every encoder output contains at least
two dots while this name contains one. -/
theorem claim_C4_counterexample :
    processName badName = .frame badRec ∧ badRec.eye_id = 0 ∧
      badRec.frame_num = 1 ∧ badRec.format = .JPEG ∧
      ∀ r : PreviewFrame, toStr r ≠ badName := by
  refine ⟨rfl, rfl, rfl, rfl, ?_⟩
  intro r he
  have h2 := count_dot_toStr r
  rw [he] at h2
  have h1 : (badName.count '.') = 1 := rfl
  omega

theorem claim_C3_witness : load_all strayNames = .ok [] :=
  claim_C3_amended strayNames (by decide)

theorem claim_C4_witness :
    globMatch filePatternGlob badName = true ∧
    ∃ g1 g2 g3 g4, extractGroups badName = some (g1, g2, g3, g4) ∧
      pyInt g1 = some badRec.eye_id ∧ pyInt g2 = some badRec.frame_num ∧
      pyFloat g3 = some badRec.confidence ∧
      Format.from_extension g4 = some badRec.format :=
  claim_C4_amended badName badRec rfl

/- ## Lemmas: positional zip alignment -/

theorem optGets_none (i : ℕ) (gs : List (List PreviewFrame)) (g : List PreviewFrame)
    (hg : g ∈ gs) (hn : g[i]? = none) : optGets i gs = none := by
  induction gs with
  | nil => cases hg
  | cons a gs ih =>
    rcases List.mem_cons.1 hg with rfl | hm
    · simp [optGets, hn]
    · simp only [optGets]
      cases ha : a[i]? with
      | none => rfl
      | some x => rw [ih hm]; rfl

theorem optGets_zero (gs : List (List PreviewFrame)) (h : ∀ g ∈ gs, g ≠ []) :
    optGets 0 gs = some (gs.filterMap List.head?) := by
  induction gs with
  | nil => rfl
  | cons a gs ih =>
    obtain ⟨x, xs, rfl⟩ : ∃ x xs, a = x :: xs := by
      cases a with
      | nil => exact absurd rfl (h _ (by simp))
      | cons x xs => exact ⟨x, xs, rfl⟩
    simp [optGets, List.filterMap_cons, ih fun g hg => h g (by simp [hg])]

theorem optGets_succ (i : ℕ) (gs : List (List PreviewFrame)) (h : ∀ g ∈ gs, g ≠ []) :
    optGets (i + 1) gs = optGets i (gs.map List.tail) := by
  induction gs with
  | nil => rfl
  | cons a gs ih =>
    obtain ⟨x, xs, rfl⟩ : ∃ x xs, a = x :: xs := by
      cases a with
      | nil => exact absurd rfl (h _ (by simp))
      | cons x xs => exact ⟨x, xs, rfl⟩
    simp [optGets, List.getElem?_cons_succ, ih fun g hg => h g (by simp [hg])]

theorem optGets_isSome (i : ℕ) (gs : List (List PreviewFrame)) :
    (optGets i gs).isSome = true ↔ ∀ g ∈ gs, i < g.length := by
  induction gs with
  | nil => simp [optGets]
  | cons a gs ih =>
    simp only [optGets]
    cases ha : a[i]? with
    | none =>
      have hlen : a.length ≤ i := List.getElem?_eq_none_iff.1 ha
      constructor
      · intro hh; cases hh
      · intro hh; exact absurd (hh a (by simp)) (by omega)
    | some x =>
      have hlt : i < a.length := by
        by_contra hc
        rw [List.getElem?_eq_none_iff.2 (by omega)] at ha
        cases ha
      have hiso : ((optGets i gs).map (x :: ·)).isSome = (optGets i gs).isSome := by
        cases optGets i gs <;> rfl
      rw [hiso, ih]
      constructor
      · intro hh g hg
        rcases List.mem_cons.1 hg with rfl | hm
        · exact hlt
        · exact hh g hm
      · intro hh g hg
        exact hh g (by simp [hg])

theorem zipAllAux_getElem? :
    ∀ (fuel : ℕ) (gs : List (List PreviewFrame)) (g0 : List PreviewFrame),
      g0 ∈ gs → g0.length < fuel → ∀ i, (zipAllAux fuel gs)[i]? = optGets i gs := by
  intro fuel
  induction fuel with
  | zero => intro gs g0 _ h; omega
  | succ fuel ih =>
    intro gs g0 hg0 hlen i
    by_cases hstop : (gs.isEmpty || gs.any List.isEmpty) = true
    · rw [zipAllAux, if_pos hstop]
      have hor : gs.isEmpty = true ∨ gs.any List.isEmpty = true := by
        simpa using hstop
      rcases hor with he | he
      · rw [List.isEmpty_iff] at he
        subst he
        cases hg0
      · obtain ⟨g, hgmem, hge⟩ := List.any_eq_true.1 he
        rw [List.isEmpty_iff] at hge
        subst hge
        rw [optGets_none i gs [] hgmem (by simp)]
        simp
    · rw [zipAllAux, if_neg hstop]
      have hall : ∀ g ∈ gs, g ≠ [] := by
        intro g hgm hn0
        apply hstop
        have hany : gs.any List.isEmpty = true :=
          List.any_eq_true.2 ⟨g, hgm, by simp [hn0]⟩
        simp [hany]
      cases i with
      | zero => rw [List.getElem?_cons_zero, optGets_zero gs hall]
      | succ i =>
        rw [List.getElem?_cons_succ]
        have hg0' : g0.tail ∈ gs.map List.tail := List.mem_map_of_mem _ hg0
        have hne0 : g0 ≠ [] := hall g0 hg0
        have hl0 : g0.length ≠ 0 := by
          intro hz
          exact hne0 (List.length_eq_zero.1 hz)
        have hlt : g0.tail.length < fuel := by
          rw [List.length_tail]
          omega
        rw [ih (gs.map List.tail) g0.tail hg0' hlt i, optGets_succ i gs hall]

theorem zipAll_getElem? (gs : List (List PreviewFrame)) (h : gs ≠ []) (i : ℕ) :
    (zipAll gs)[i]? = optGets i gs := by
  obtain ⟨g0, gs', rfl⟩ := List.exists_cons_of_ne_nil h
  unfold zipAll
  exact zipAllAux_getElem? _ _ g0 (by simp) (by simp) i

theorem minLen_le (gs : List (List PreviewFrame)) (g : List PreviewFrame)
    (hg : g ∈ gs) : minLen gs ≤ g.length := by
  induction gs with
  | nil => cases hg
  | cons a gs ih =>
    cases gs with
    | nil =>
      simp only [List.mem_singleton] at hg
      subst hg
      exact le_refl _
    | cons b t =>
      rcases List.mem_cons.1 hg with rfl | hm
      · exact min_le_left _ _
      · exact le_trans (min_le_right _ _) (ih hm)

theorem minLen_mem (gs : List (List PreviewFrame)) (h : gs ≠ []) :
    ∃ g ∈ gs, g.length = minLen gs := by
  induction gs with
  | nil => exact absurd rfl h
  | cons a gs ih =>
    cases gs with
    | nil => exact ⟨a, by simp, rfl⟩
    | cons b t =>
      obtain ⟨g, hgm, hge⟩ := ih (by simp)
      by_cases hc : a.length ≤ minLen (b :: t)
      · refine ⟨a, by simp, ?_⟩
        show a.length = min a.length (minLen (b :: t))
        omega
      · refine ⟨g, by simp [hgm], ?_⟩
        show g.length = min a.length (minLen (b :: t))
        omega

theorem zipAll_length (gs : List (List PreviewFrame)) (h : gs ≠ []) :
    (zipAll gs).length = minLen gs := by
  have hchar := zipAll_getElem? gs h
  obtain ⟨g, hgm, hge⟩ := minLen_mem gs h
  have hnone : (zipAll gs)[minLen gs]? = none := by
    rw [hchar]
    exact optGets_none _ gs g hgm (List.getElem?_eq_none_iff.2 (by omega))
  have hle : (zipAll gs).length ≤ minLen gs := List.getElem?_eq_none_iff.1 hnone
  rcases Nat.lt_or_ge (zipAll gs).length (minLen gs) with hlt | hge2
  · exfalso
    have h1 : (zipAll gs)[(zipAll gs).length]? = none :=
      List.getElem?_eq_none_iff.2 (le_refl _)
    rw [hchar] at h1
    have h2 : (optGets (zipAll gs).length gs).isSome = true :=
      (optGets_isSome _ _).2 fun g' hg' => lt_of_lt_of_le hlt (minLen_le gs g' hg')
    rw [h1] at h2
    cases h2
  · omega

theorem minLen_map_sort (cols : List (ℕ × List PreviewFrame)) :
    minLen (cols.map fun c => sortByFrame c.2) = minLen (cols.map fun c => c.2) := by
  induction cols with
  | nil => rfl
  | cons a cols ih =>
    cases cols with
    | nil =>
      show (sortByFrame a.2).length = a.2.length
      exact List.length_insertionSort _ _
    | cons b t =>
      show min (sortByFrame a.2).length (minLen ((b :: t).map fun c => sortByFrame c.2)) =
        min a.2.length (minLen ((b :: t).map fun c => c.2))
      simp only [sortByFrame] at ih ⊢
      rw [List.length_insertionSort, ih]

/- ## Claim C8 -/

/-- Claim C8: the loader zips the per-source groups positionally after
sorting each group by frame number: the result's length is the shortest
group's record count (an empty directory giving an empty result), and the
tuple at position `i` holds each source's `i`-th record of its sorted
group — positional matching, not frame-number matching. -/
theorem claim_C8_alignment (names : List (List Char))
    (cols : List (ℕ × List PreviewFrame)) (h : collectGroups names = .ok cols) :
    load_all names = .ok (zipAll (cols.map fun c => sortByFrame c.2)) ∧
    (names = [] → zipAll (cols.map fun c => sortByFrame c.2) = []) ∧
    (cols ≠ [] → (zipAll (cols.map fun c => sortByFrame c.2)).length
        = minLen (cols.map fun c => c.2)) ∧
    (cols ≠ [] → ∀ i, (zipAll (cols.map fun c => sortByFrame c.2))[i]?
        = optGets i (cols.map fun c => sortByFrame c.2)) ∧
    (∀ g ∈ cols.map fun c => sortByFrame c.2, List.Sorted frameLe g) := by
  have hmapne : cols ≠ [] → (cols.map fun c => sortByFrame c.2) ≠ [] := by
    intro hc hm
    exact hc (List.map_eq_nil_iff.1 hm)
  refine ⟨?_, ?_, ?_, ?_, ?_⟩
  · simp [load_all, h, Except.map]
  · intro hns
    subst hns
    have h0 : (Except.ok ([] : List (ℕ × List PreviewFrame))
        : Except LoadErr (List (ℕ × List PreviewFrame))) = .ok cols := h
    injection h0 with h0
    subst h0
    rfl
  · intro hc
    rw [zipAll_length _ (hmapne hc), minLen_map_sort]
  · intro hc i
    exact zipAll_getElem? _ (hmapne hc) i
  · intro g hg
    obtain ⟨c, _, rfl⟩ := List.mem_map.1 hg
    exact List.sorted_insertionSort frameLe _

theorem claim_C8_witness :
    collectGroups demoNames = Except.ok demoCols ∧
    (zipAll (demoCols.map fun c => sortByFrame c.2)).length = 1 :=
  ⟨rfl, ((claim_C8_alignment demoNames demoCols rfl).2.2.1 (by decide)).trans (by decide)⟩

/- ## Lemmas: the accumulator -/

theorem add_state (s : ImageStream) (p : Payload) :
    (s.add p).2.1 = { s with counter := s.counter + 1 } := by
  unfold ImageStream.add
  split_ifs <;> rfl

theorem add_written (s : ImageStream) (p : Payload) :
    (s.add p).2.2 = none ∨
      (s.add p).2.2 = some ⟨s.eye_id, s.counter + 1, s.detector p, s.frame_format⟩ := by
  unfold ImageStream.add
  split_ifs <;> simp

theorem add_valid_trigger (s : ImageStream) (p : Payload)
    (ht : (s.counter + 1) % s.frame_per_frames = 0)
    (h1 : p.format = "gray" ∨ p.format = "bgr" ∨ p.format = "jpeg")
    (h2 : p.format = "jpeg" ∨ p.rawLen = expectedSize s p.format) :
    s.add p = (.added, { s with counter := s.counter + 1 },
      some ⟨s.eye_id, s.counter + 1, s.detector p, s.frame_format⟩) := by
  simp only [ImageStream.add]
  rw [if_pos ht, if_neg, if_pos]
  · rcases h2 with h | h
    · exact Or.inr h
    · exact Or.inl h
  · rintro ⟨hg, hb, hj⟩
    rcases h1 with h | h | h
    exacts [hg h, hb h, hj h]

theorem add_skip (s : ImageStream) (p : Payload)
    (ht : ¬ (s.counter + 1) % s.frame_per_frames = 0) :
    s.add p = (.skipped, { s with counter := s.counter + 1 }, none) := by
  simp only [ImageStream.add]
  rw [if_neg ht]

theorem runAdds_counter (ps : List Payload) :
    ∀ s : ImageStream, (runAdds s ps).1.counter = s.counter + ps.length := by
  induction ps with
  | nil => intro s; simp [runAdds]
  | cons p ps ih =>
    intro s
    simp only [runAdds]
    rw [ih, add_state]
    simp
    omega

theorem runAdds_spec (K : ℕ) :
    ∀ (ps : List Payload) (s : ImageStream),
      s.frame_per_frames = K →
      (∀ p ∈ ps, p.format = "gray" ∨ p.format = "bgr" ∨ p.format = "jpeg") →
      (∀ p ∈ ps, p.format = "jpeg" ∨ p.rawLen = expectedSize s p.format) →
      (runAdds s ps).2.1 = (List.range' (s.counter + 1) ps.length).map
        (fun m => if m % K = 0 then AddResult.added else AddResult.skipped) ∧
      (runAdds s ps).2.2.map PreviewFrame.frame_num =
        (List.range' (s.counter + 1) ps.length).filter (fun m => m % K == 0) := by
  intro ps
  induction ps with
  | nil => intro s _ _ _; exact ⟨rfl, rfl⟩
  | cons p ps ih =>
    intro s hK h1 h2
    have hK2 : ({ s with counter := s.counter + 1 } : ImageStream).frame_per_frames = K := hK
    have hexp : ∀ f, expectedSize { s with counter := s.counter + 1 } f = expectedSize s f :=
      fun _ => rfl
    have ih2 := ih { s with counter := s.counter + 1 } hK2
      (fun q hq => h1 q (by simp [hq]))
      (fun q hq => by rw [hexp]; exact h2 q (by simp [hq]))
    obtain ⟨ir, ifl⟩ := ih2
    rw [List.length_cons, List.range'_succ]
    by_cases ht : (s.counter + 1) % K = 0
    · have hr := add_valid_trigger s p (by rw [hK]; exact ht) (h1 p (by simp)) (h2 p (by simp))
      simp only [runAdds, hr]
      constructor
      · rw [List.map_cons, if_pos ht]
        exact congrArg _ ir
      · rw [List.filter_cons]
        simp only [ht]
        simp only [Option.toList_some, List.cons_append, List.nil_append, List.map_cons]
        rw [ifl]
        simp
    · have hr := add_skip s p (by rw [hK]; exact ht)
      simp only [runAdds, hr]
      constructor
      · rw [List.map_cons, if_neg ht]
        exact congrArg _ ir
      · rw [List.filter_cons]
        have hbeq : ((s.counter + 1) % K == 0) = false := by
          simp [ht]
        simp only [hbeq, Bool.false_eq_true, if_false]
        simpa using ifl

theorem range'_filter_mult (K : ℕ) (hK : 0 < K) :
    ∀ N : ℕ, (List.range' 1 N).filter (fun m => m % K == 0) =
      (List.range (N / K)).map (fun i => (i + 1) * K) := by
  intro N
  induction N with
  | zero => simp
  | succ N ih =>
    rw [List.range'_concat, List.filter_append]
    have he : 1 + 1 * N = N + 1 := by omega
    rw [show (1 + 1 * N) = N + 1 from he]
    by_cases hd : (N + 1) % K = 0
    · have hdvd : K ∣ N + 1 := Nat.dvd_of_mod_eq_zero hd
      have hdiv : (N + 1) / K = N / K + 1 := by
        rw [Nat.succ_div]
        simp [hdvd]
      have hmul : (N / K + 1) * K = N + 1 := by
        rw [← hdiv, Nat.div_mul_cancel hdvd]
      rw [hdiv, List.range_succ, List.map_append, ih]
      congr 1
      simp [hd, hmul]
    · have hndvd : ¬ K ∣ N + 1 := fun hc => hd (Nat.mod_eq_zero_of_dvd hc)
      have hdiv : (N + 1) / K = N / K := by
        rw [Nat.succ_div]
        simp [hndvd]
      rw [hdiv, ih]
      have hf : (List.filter (fun m => m % K == 0) [N + 1]) = [] := by
        simp [hd]
      rw [hf, List.append_nil]

theorem runAdds_bounds (ps : List Payload) :
    ∀ s : ImageStream, ∀ f ∈ (runAdds s ps).2.2,
      s.counter < f.frame_num ∧ f.frame_num ≤ (runAdds s ps).1.counter := by
  induction ps with
  | nil => intro s f hf; simp [runAdds] at hf
  | cons p ps ih =>
    intro s f hf
    have hcnt : (runAdds s (p :: ps)).1.counter = s.counter + (ps.length + 1) := by
      rw [runAdds_counter]
      simp
    simp only [runAdds, List.mem_append] at hf
    rcases hf with hf | hf
    · rcases add_written s p with hw | hw <;> rw [hw] at hf
      · simp at hf
      · simp only [Option.toList_some, List.mem_singleton] at hf
        subst hf
        refine ⟨by simp, ?_⟩
        rw [hcnt]
        simp
    · have := ih (s.add p).2.1 f hf
      rw [add_state] at this
      refine ⟨by have := this.1; simp at this; omega, ?_⟩
      rw [hcnt]
      have h2 := this.2
      rw [show (runAdds { s with counter := s.counter + 1 } ps).1.counter
          = s.counter + 1 + ps.length from by rw [runAdds_counter]] at h2
      have h3 : (runAdds (s.add p).2.1 ps).1.counter =
          (runAdds { s with counter := s.counter + 1 } ps).1.counter := by
        rw [add_state]
      omega

theorem runAdds_pairwise (ps : List Payload) :
    ∀ s : ImageStream,
      ((runAdds s ps).2.2.map PreviewFrame.frame_num).Pairwise (· < ·) := by
  induction ps with
  | nil => intro s; simp [runAdds]
  | cons p ps ih =>
    intro s
    simp only [runAdds, List.map_append]
    rw [List.pairwise_append]
    refine ⟨?_, ?_, ?_⟩
    · rcases add_written s p with hw | hw <;> rw [hw] <;> simp
    · have := ih (s.add p).2.1
      exact this
    · intro a ha b hb
      rcases add_written s p with hw | hw <;> rw [hw] at ha
      · simp at ha
      · simp only [Option.toList_some, List.map_cons, List.map_nil,
          List.mem_singleton] at ha
        subst ha
        obtain ⟨g, hg, rfl⟩ := List.mem_map.1 hb
        have hbd := (runAdds_bounds ps (s.add p).2.1 g hg).1
        rw [add_state] at hbd
        simp at hbd
        simp
        omega

/- ## Claim C2 -/

/-- Claim C2: with sampling interval K ≥ 1, a fresh accumulator fed N valid
payloads persists exactly ⌊N/K⌋ records whose frame numbers are
K, 2K, 3K, … in order; every other call returns Skipped, and the counter
advances on every call. -/
theorem claim_C2_sampling (s : ImageStream) (ps : List Payload)
    (hK : 0 < s.frame_per_frames) (h0 : s.counter = 0)
    (h1 : ∀ p ∈ ps, p.format = "gray" ∨ p.format = "bgr" ∨ p.format = "jpeg")
    (h2 : ∀ p ∈ ps, p.format = "jpeg" ∨ p.rawLen = expectedSize s p.format) :
    (runAdds s ps).2.2.map PreviewFrame.frame_num =
      (List.range (ps.length / s.frame_per_frames)).map
        (fun i => (i + 1) * s.frame_per_frames) ∧
    (runAdds s ps).2.2.length = ps.length / s.frame_per_frames ∧
    (runAdds s ps).2.1 = (List.range' 1 ps.length).map
      (fun m => if m % s.frame_per_frames = 0
        then AddResult.added else AddResult.skipped) ∧
    (runAdds s ps).1.counter = ps.length := by
  obtain ⟨ir, ifl⟩ := runAdds_spec s.frame_per_frames ps s rfl h1 h2
  rw [h0] at ir ifl
  norm_num at ir ifl
  have hmap : (runAdds s ps).2.2.map PreviewFrame.frame_num =
      (List.range (ps.length / s.frame_per_frames)).map
        (fun i => (i + 1) * s.frame_per_frames) := by
    rw [ifl, range'_filter_mult _ hK]
  refine ⟨hmap, ?_, ir, ?_⟩
  · have := congrArg List.length hmap
    simpa using this
  · rw [runAdds_counter, h0]
    simp

/- ## Claim C5 -/

/-- Claim C5: a triggering call whose payload's pixel format is outside the
closed set gray / bgr (packed color) / jpeg raises the unsupported-format
error, and that call writes no file (the counter still advances). -/
theorem claim_C5_unsupported (s : ImageStream) (p : Payload)
    (ht : (s.counter + 1) % s.frame_per_frames = 0)
    (hg : p.format ≠ "gray") (hb : p.format ≠ "bgr") (hj : p.format ≠ "jpeg") :
    (s.add p).1 = .raisedNotImplemented p.format ∧ (s.add p).2.2 = none ∧
      (s.add p).2.1.counter = s.counter + 1 := by
  simp only [ImageStream.add]
  rw [if_pos ht, if_pos ⟨hg, hb, hj⟩]
  exact ⟨rfl, rfl, rfl⟩

/- ## Claim C6 -/

/-- Claim C6: on a triggering call, a gray or bgr payload whose byte length
differs from width·height·channels raises the size-mismatch error and writes
no file; for a jpeg payload the length check is not applied — the call
succeeds and writes its record whatever the byte length. -/
theorem claim_C6_size_mismatch (s : ImageStream) (p : Payload)
    (ht : (s.counter + 1) % s.frame_per_frames = 0) :
    ((p.format = "gray" ∨ p.format = "bgr") → p.rawLen ≠ expectedSize s p.format →
      (s.add p).1 = .raisedSizeMismatch p.rawLen ∧ (s.add p).2.2 = none) ∧
    (p.format = "jpeg" →
      (s.add p).1 = .added ∧
        (s.add p).2.2 = some ⟨s.eye_id, s.counter + 1, s.detector p, s.frame_format⟩) := by
  constructor
  · intro hfmt hlen
    have hnj : p.format ≠ "jpeg" := by
      rcases hfmt with h | h <;> rw [h] <;> decide
    simp only [ImageStream.add]
    rw [if_pos ht, if_neg, if_neg]
    · exact ⟨rfl, rfl⟩
    · rintro (h | h)
      · exact hlen h
      · exact hnj h
    · rintro ⟨hg, hb, _⟩
      rcases hfmt with h | h
      exacts [hg h, hb h]
  · intro hj
    simp only [ImageStream.add]
    rw [if_pos ht, if_neg, if_pos (Or.inr hj)]
    · exact ⟨rfl, rfl⟩
    · rintro ⟨_, _, h⟩
      exact h hj

/- ## Claim C9 -/

/-- Claim C9: within one accumulator, any run of `add` calls (valid or not)
persists records in strictly increasing frame-number order, each strictly
greater than the counter value the run started from (so also greater than
everything the accumulator persisted before). -/
theorem claim_C9_monotone (s : ImageStream) (ps : List Payload)
    (hK : 0 < s.frame_per_frames) :
    ((runAdds s ps).2.2.map PreviewFrame.frame_num).Pairwise (· < ·) ∧
    ∀ f ∈ (runAdds s ps).2.2, s.counter < f.frame_num :=
  ⟨runAdds_pairwise ps s, fun f hf => (runAdds_bounds ps s f hf).1⟩

/- ## Claim C7 -/

/-- Claim C7 (amended): a `recording.started` notification arriving while a
worker from a previous start is still present is silently ignored — no
second worker is spawned, the state is unchanged, and NO error of any kind
is raised (the branch guard `self.__worker is None` simply fails and the
handler falls through). -/
theorem claim_C7_amended (s : PluginState) (rp : List Char) (j : Bool)
    (w : WorkerInfo) (hw : s.worker = some w) :
    on_notify s "recording.started" rp j = .ok (s, []) := by
  unfold on_notify
  rw [if_neg, if_neg, if_neg, if_neg]
  · rintro ⟨h1, -⟩
    exact absurd h1 (by decide)
  · rintro ⟨h1, -⟩
    exact absurd h1 (by decide)
  · rintro ⟨h1, -⟩
    exact absurd h1 (by decide)
  · rintro ⟨-, h2⟩
    rw [hw] at h2
    cases h2

/-- Claim C7 (counterexample): from a state whose worker is still present,
`on_notify "recording.started"` returns without error and without spawning —
it does not fail with an `AlreadyRunning` error as the claim states. -/
theorem claim_C7_counterexample :
    on_notify c7run "recording.started" [] true = .ok (c7run, []) := rfl

theorem claim_C7_witness :
    on_notify c7run2 "recording.started" ['r'] false = .ok (c7run2, []) :=
  claim_C7_amended c7run2 ['r'] false ⟨false⟩ rfl

/- ## Claim C10 -/

/-- Claim C10: the worker's error capture spans its whole body, the initial
connection setup included: however the body ends, the sequence of messages
sent on the status channel contains at most one exception value — exactly
one precisely when the body raised, as its final message — and the worker
function itself returns normally (the model's `generate` is total).  In
particular a setup failure is reported as `connecting` followed by the
raised exception. -/
theorem claim_C10_capture (a : GenArgs) (events : List WorkerEvent) :
    (generate a events).countP isRaisedMsg =
      (if (generateBody a events).2.isOk then 0 else 1) ∧
    (∀ m ∈ (generate a events).dropLast, isRaisedMsg m = false) ∧
    (∀ e, a.connect_error = some e →
      generate a events = [.connecting, .raised e]) := by
  cases hc : a.connect_error with
  | some e =>
    have hb : generateBody a events = ([.connecting], .error e) := by
      simp [generateBody, hc]
    refine ⟨?_, ?_, ?_⟩
    · simp [generate, hb, isRaisedMsg, Except.isOk, Except.toBool]
    · simp [generate, hb, isRaisedMsg]
    · intro e2 he2
      injection he2 with he2
      subst he2
      simp [generate, hb]
  | none =>
    have hb : generateBody a events = ([.connecting, .starting], workerLoop a [] events) := by
      simp [generateBody, hc]
    cases hl : workerLoop a [] events with
    | ok u =>
      cases u
      refine ⟨?_, ?_, ?_⟩
      · simp [generate, hb, hl, isRaisedMsg, Except.isOk, Except.toBool]
      · simp [generate, hb, hl, isRaisedMsg]
      · intro e2 he2
        simp at he2
    | error e =>
      refine ⟨?_, ?_, ?_⟩
      · simp [generate, hb, hl, isRaisedMsg, Except.isOk, Except.toBool]
      · simp [generate, hb, hl, isRaisedMsg]
      · intro e2 he2
        simp at he2

/- ## Remaining witnesses -/

theorem claim_C1_witness :
    (1 ≤ (⟨7, 3, 0, .JPEG⟩ : PreviewFrame).frame_num) ∧
    (0 ≤ (⟨7, 3, 0, .JPEG⟩ : PreviewFrame).confidence) ∧
    ((⟨7, 3, 0, .JPEG⟩ : PreviewFrame).confidence ≤ 1) ∧
    ∃ r2, processName (toStr (⟨7, 3, 0, .JPEG⟩ : PreviewFrame)) = .frame r2 ∧
      r2.eye_id = 7 ∧ r2.frame_num = 3 ∧ r2.format = .JPEG ∧
      rhe (r2.confidence * 10000) =
        rhe ((⟨7, 3, 0, .JPEG⟩ : PreviewFrame).confidence * 10000) :=
  ⟨by decide, le_refl 0, zero_le_one,
    claim_C1_roundtrip _ (by decide) (le_refl 0) zero_le_one⟩

theorem claim_C2_witness :
    0 < demoStream.frame_per_frames ∧
    (runAdds demoStream demoPayloads).2.2.map PreviewFrame.frame_num = [3] ∧
    (runAdds demoStream demoPayloads).2.1 = [.skipped, .skipped, .added] ∧
    (runAdds demoStream demoPayloads).1.counter = 3 := by
  have h := claim_C2_sampling demoStream demoPayloads (by decide) rfl
    (by decide) (by decide)
  refine ⟨by decide, ?_, ?_, ?_⟩
  · exact h.1.trans (by decide)
  · exact h.2.2.1.trans (by decide)
  · exact h.2.2.2.trans (by decide)

theorem claim_C5_witness :
    (demoTrig.counter + 1) % demoTrig.frame_per_frames = 0 ∧
    (demoTrig.add rgbPayload).1 = .raisedNotImplemented "rgb" ∧
    (demoTrig.add rgbPayload).2.2 = none ∧
    (demoTrig.add rgbPayload).2.1.counter = 1 := by
  have h := claim_C5_unsupported demoTrig rgbPayload (by decide) (by decide)
    (by decide) (by decide)
  exact ⟨by decide, h.1, h.2.1, h.2.2⟩

theorem claim_C6_witness :
    ((demoTrig.add grayWrongLen).1 = .raisedSizeMismatch 7 ∧
      (demoTrig.add grayWrongLen).2.2 = none) ∧
    ((demoTrig.add jpegWrongLen).1 = .added ∧
      (demoTrig.add jpegWrongLen).2.2 =
        some ⟨7, 1, demoTrig.detector jpegWrongLen, .JPEG⟩) := by
  have h1 := (claim_C6_size_mismatch demoTrig grayWrongLen (by decide)).1
    (Or.inl rfl) (by decide)
  have h2 := (claim_C6_size_mismatch demoTrig jpegWrongLen (by decide)).2 rfl
  exact ⟨⟨h1.1, h1.2⟩, ⟨h2.1, h2.2⟩⟩

theorem claim_C9_witness :
    0 < demoTrig.frame_per_frames ∧
    ((runAdds demoTrig demoPayloads).2.2.map PreviewFrame.frame_num).Pairwise (· < ·) :=
  ⟨by decide, (claim_C9_monotone demoTrig demoPayloads (by decide)).1⟩

theorem claim_C10_witness :
    generate demoGen [] = [.connecting, .raised .connectFail] :=
  (claim_C10_capture demoGen []).2.2 .connectFail rfl

